import Mathlib

/-!
# Verification of the document-ingestion pipeline

Shallow embedding of the repository's document-ingestion pipeline:
the S3 locator resolution (`downloadFileContentFromUrl`), the document
parser (`parseContentFromString`, `parseDocument`), the embedding batch
builder (`getEmbedding`, `getEmbeddingsForDocuments`), the Pinecone
upsert (`upsertVectors`) and the orchestrator (`processDocumentFromS3`).

External collaborators (the S3 store, the `pdf-parse` and `papaparse`
libraries, the embedding provider, the Pinecone index) are modelled as
explicit oracle parameters; the JavaScript builtins `JSON.parse` /
`JSON.stringify` are modelled concretely by `jsonParse` / `jsonStringify`
on a JSON value type whose numbers are integers (the repository's own
test payloads only use integer numbers) and whose string escapes cover
quote and backslash.
-/

/-! ## Characters and digits -/

/-- JSON whitespace as accepted by `JSON.parse` (space, tab, newline, CR). -/
def jsSpace (c : Char) : Bool := c = ' ' || c = '\t' || c = '\n' || c = '\r'

/-- Drop leading JSON whitespace. -/
def eatWs : List Char → List Char
  | c :: cs => if jsSpace c then eatWs cs else c :: cs
  | [] => []

/-- Decimal digit test. -/
def isDig (c : Char) : Bool := '0' ≤ c && c ≤ '9'

/-- Longest leading run of decimal digits, and the remainder. -/
def digSpan : List Char → List Char × List Char
  | c :: cs =>
    if isDig c then
      match digSpan cs with
      | (ds, r) => (c :: ds, r)
    else ([], c :: cs)
  | [] => ([], [])

/-- Numeric value of a digit character. -/
def digVal (c : Char) : Nat := c.toNat - 48

/-- Decimal value of a digit string, most significant first. -/
def digsToNat (ds : List Char) : Nat := ds.foldl (fun a c => a * 10 + digVal c) 0

/-- The digit character for a value below ten. -/
def dChar : Nat → Char
  | 0 => '0' | 1 => '1' | 2 => '2' | 3 => '3' | 4 => '4'
  | 5 => '5' | 6 => '6' | 7 => '7' | 8 => '8' | _ => '9'

/-- Decimal digit characters of a natural number, fuelled so that the
definition is structural and evaluates inside the kernel. -/
def natDigsGo : Nat → Nat → List Char → List Char
  | 0, _, acc => acc
  | f + 1, n, acc =>
    if n < 10 then dChar n :: acc else natDigsGo f (n / 10) (dChar (n % 10) :: acc)

/-- Decimal digit characters of a natural number, most significant first. -/
def natDigs (n : Nat) : List Char := natDigsGo (n + 1) n []

/-- Decimal rendering of an integer, as `JSON.stringify` prints integral numbers. -/
def intChars (i : Int) : List Char :=
  if i < 0 then '-' :: natDigs i.natAbs else natDigs i.natAbs

/-! ## JSON values, writer and reader -/

/-- A JSON value; numbers restricted to integers. -/
inductive JValue where
  | null
  | bool (b : Bool)
  | num (n : Int)
  | str (s : String)
  | arr (items : List JValue)
  | obj (props : List (String × JValue))

/-- Escape one character the way the writer prints string bodies. -/
def escChar (c : Char) : List Char :=
  if c = '"' then ['\\', '"'] else if c = '\\' then ['\\', '\\'] else [c]

/-- Escape a whole string body. -/
def escChars : List Char → List Char
  | [] => []
  | c :: cs => escChar c ++ escChars cs

mutual
/-- Model of `JSON.stringify`: render a value to characters (no added spaces). -/
def jWrite : JValue → List Char
  | .num i => intChars i
  | .str s => '"' :: (escChars s.data ++ ['"'])
  | .arr items => '[' :: (jWriteItems items ++ [']'])
  | .obj props => '{' :: (jWriteProps props ++ ['}'])
  | .null => ['n', 'u', 'l', 'l']
  | .bool b => if b then ['t', 'r', 'u', 'e'] else ['f', 'a', 'l', 's', 'e']
/-- Comma-separated rendering of array items. -/
def jWriteItems : List JValue → List Char
  | [] => []
  | [v] => jWrite v
  | v :: vs => jWrite v ++ ',' :: jWriteItems vs
/-- Comma-separated rendering of object properties. -/
def jWriteProps : List (String × JValue) → List Char
  | [] => []
  | [(k, v)] => '"' :: (escChars k.data ++ ('"' :: ':' :: jWrite v))
  | (k, v) :: ps =>
    ('"' :: (escChars k.data ++ ('"' :: ':' :: jWrite v))) ++ ',' :: jWriteProps ps
end

/-- Unescape one character after a backslash in a string literal. -/
def jsUnesc : Char → Option Char
  | 'n' => some '\n'
  | 't' => some '\t'
  | 'r' => some '\r'
  | '"' => some '"'
  | '/' => some '/'
  | '\\' => some '\\'
  | _ => none

/-- Read a string body after the opening quote, up to the closing quote. -/
def readStrTail : List Char → Option (List Char × List Char)
  | [] => none
  | c :: cs =>
    if c = '\\' then
      match cs with
      | [] => none
      | e :: cs2 =>
        match jsUnesc e with
        | some u =>
          match readStrTail cs2 with
          | some (s, r) => some (u :: s, r)
          | none => none
        | none => none
    else if c = '"' then some ([], cs)
    else
      match readStrTail cs with
      | some (s, r) => some (c :: s, r)
      | none => none

/-- Read an integer literal (optional minus sign, then digits). -/
def readNum : List Char → Option (Int × List Char)
  | [] => none
  | c :: cs =>
    if c = '-' then
      match digSpan cs with
      | ([], _) => none
      | (ds, r) => some (-(digsToNat ds : Int), r)
    else
      match digSpan (c :: cs) with
      | ([], _) => none
      | (ds, r) => some ((digsToNat ds : Int), r)

mutual
/-- Model of `JSON.parse` on character lists: read one value.  The fuel makes
the recursion structural; the top-level wrapper supplies ample fuel. -/
def jRead : Nat → List Char → Option (JValue × List Char)
  | 0, _ => none
  | f + 1, cs =>
    match eatWs cs with
    | 'n' :: 'u' :: 'l' :: 'l' :: r => some (.null, r)
    | 't' :: 'r' :: 'u' :: 'e' :: r => some (.bool true, r)
    | 'f' :: 'a' :: 'l' :: 's' :: 'e' :: r => some (.bool false, r)
    | '"' :: r =>
      match readStrTail r with
      | some (s, r2) => some (.str ⟨s⟩, r2)
      | none => none
    | '[' :: r =>
      match eatWs r with
      | ']' :: r2 => some (.arr [], r2)
      | r1 =>
        match jReadItems f r1 with
        | some (vs, r2) => some (.arr vs, r2)
        | none => none
    | '{' :: r =>
      match eatWs r with
      | '}' :: r2 => some (.obj [], r2)
      | r1 =>
        match jReadProps f r1 with
        | some (ps, r2) => some (.obj ps, r2)
        | none => none
    | r =>
      match readNum r with
      | some (i, r2) => some (.num i, r2)
      | none => none
/-- Read one or more comma-separated array items, then the closing bracket. -/
def jReadItems : Nat → List Char → Option (List JValue × List Char)
  | 0, _ => none
  | f + 1, cs =>
    match jRead f cs with
    | none => none
    | some (v, r) =>
      match eatWs r with
      | ',' :: r2 =>
        match jReadItems f r2 with
        | some (vs, r3) => some (v :: vs, r3)
        | none => none
      | ']' :: r2 => some ([v], r2)
      | _ => none
/-- Read one or more comma-separated object properties, then the closing brace. -/
def jReadProps : Nat → List Char → Option (List (String × JValue) × List Char)
  | 0, _ => none
  | f + 1, cs =>
    match eatWs cs with
    | '"' :: r =>
      match readStrTail r with
      | none => none
      | some (k, r1) =>
        match eatWs r1 with
        | ':' :: r2 =>
          match jRead f r2 with
          | none => none
          | some (v, r3) =>
            match eatWs r3 with
            | ',' :: r4 =>
              match jReadProps f r4 with
              | some (ps, r5) => some ((⟨k⟩, v) :: ps, r5)
              | none => none
            | '}' :: r4 => some ([(⟨k⟩, v)], r4)
            | _ => none
        | _ => none
    | _ => none
end

/-- Model of `JSON.parse`: `some` on success, `none` where the builtin throws. -/
def jsonParse (s : String) : Option JValue :=
  match jRead (s.data.length + 1) s.data with
  | some (v, r) => if eatWs r = [] then some v else none
  | none => none

/-- Model of `JSON.stringify`. -/
def jsonStringify (v : JValue) : String := ⟨jWrite v⟩


/-! ## String and path helpers -/

/-- ASCII lowercasing, as `String.prototype.toLowerCase` on ASCII input. -/
def lowerStr (s : String) : String := ⟨s.data.map Char.toLower⟩

/-- Split a character list at every occurrence of a separator. -/
def splitCh (sep : Char) : List Char → List (List Char)
  | [] => [[]]
  | c :: cs =>
    if c = sep then [] :: splitCh sep cs
    else
      match splitCh sep cs with
      | [] => [[c]]
      | g :: gs => (c :: g) :: gs

/-- The part after the last separator (the whole list when absent). -/
def lastPart (sep : Char) (l : List Char) : List Char := (splitCh sep l).getLastD []

/-- `path.basename` (POSIX): the final path segment, trailing slashes dropped. -/
def basename (p : String) : String :=
  let core := p.data.reverse.dropWhile (fun c => c = '/')
  ⟨(core.takeWhile (fun c => c ≠ '/')).reverse⟩

/-- `path.extname` (POSIX): the suffix of the basename from its last dot;
empty when the basename has no dot, starts with its only dot, or is all dots. -/
def extname (p : String) : String :=
  let bn := (basename p).data
  if bn.all (fun c => c = '.') then ""
  else
    let post := bn.reverse.takeWhile (fun c => c ≠ '.')
    if post.length = bn.length then ""
    else if post.length + 1 = bn.length then ""
    else ⟨'.' :: post.reverse⟩

/-- `pathname.startsWith('/') ? pathname.substring(1) : pathname`. -/
def stripLeadingSlash (s : String) : String :=
  match s.data with
  | '/' :: r => ⟨r⟩
  | _ => s

/-- Is the pattern a prefix of the text? -/
def listHasPre : List Char → List Char → Bool
  | [], _ => true
  | _ :: _, [] => false
  | p :: ps, c :: cs => p = c && listHasPre ps cs

/-- Does the pattern occur anywhere in the text? -/
def listFind (pat : List Char) : List Char → Bool
  | [] => pat.isEmpty
  | c :: cs => listHasPre pat (c :: cs) || listFind pat cs

/-- `s.includes(pat)`. -/
def strHas (s pat : String) : Bool := listFind pat.data s.data

/-- `s.endsWith(pat)`. -/
def strEnds (s pat : String) : Bool := listHasPre pat.data.reverse s.data.reverse

/-! ## Error taxonomy of the pipeline (one constructor per distinct throw site) -/

inductive PipeError where
  /-- `new URL(s3Url)` throws a `TypeError` on an unparseable locator. -/
  | invalidUrl
  /-- `throw new Error('Could not determine S3 key from URL.')`. -/
  | invalidLocator
  /-- An S3 / configuration / empty-body failure while fetching the object. -/
  | s3Error (msg : String)
  /-- `fs.readFile` failure in the path-based parser. -/
  | fsError (msg : String)
  /-- The uncaught `JSON.parse` throw in `parseDocument`'s `.json` branch. -/
  | jsonSyntaxError
  /-- `throw new Error('Unsupported file type: ...')` in `parseDocument`. -/
  | unsupportedFormat (ext : String)
  /-- A throw of the external embedding provider, re-raised as-is. -/
  | providerError (msg : String)
  /-- `throw new Error('Failed to generate embeddings for document: ...')`. -/
  | embeddingFailed (docId : String)
  /-- A throw of `index.upsert`, re-raised as-is. -/
  | upsertError (msg : String)
deriving DecidableEq

/-! ## External-library result shapes -/

/-- Input handed to the external `pdf-parse` library: the buffer built either
by base64-decoding the content string or by taking its bytes directly. -/
inductive PdfInput where
  | base64 (s : String)
  | raw (s : String)

/-- Result shape of the external `pdf-parse` library. -/
structure PdfData where
  text : String
  numpages : Int
  info : JValue

/-- Character class of the regex `[\w+/=]`. -/
def wordClass (c : Char) : Bool := c.isAlphanum || c = '_' || c = '+' || c = '/' || c = '='

/-- The heuristic `content.match(/^[\w+/=]+$/)`; the un-anchored JS dollar also
matches just before one final newline. -/
def base64Shape (s : String) : Bool :=
  let l := if s.data.getLast? = some '\n' then s.data.dropLast else s.data
  !l.isEmpty && l.all wordClass

/-- The buffer the `.pdf` branch of `parseContentFromString` builds. -/
def pdfInputOf (content : String) : PdfInput :=
  if base64Shape content then .base64 content else .raw content

/-- Result shape of the external `papaparse` library under
`{ header: true, skipEmptyLines: true }`: data rows keyed by the header
fields, the header fields, the detected delimiter, and per-row errors. -/
structure CsvResult where
  rows : List (List (String × JValue))
  fields : List String
  delim : String
  errs : List String

/-- Strip one trailing carriage return (newline auto-detection). -/
def dropCr (l : List Char) : List Char :=
  if l.getLast? = some '\r' then l.dropLast else l

/-- Split CSV content into lines. -/
def splitLines (s : String) : List String :=
  (splitCh '\n' s.data).map (fun l => (⟨dropCr l⟩ : String))

/-- Split one CSV line into cells (comma delimiter, no quoting). -/
def csvCells (l : List Char) : List String := (splitCh ',' l).map (fun g => (⟨g⟩ : String))

/-- Model of `Papa.parse(content, { header: true, skipEmptyLines: true })` for
unquoted comma-separated input: first non-empty line is the header, blank
lines are skipped, every later line becomes a row object keyed by the header
fields, and a row whose cell count differs from the header yields an error. -/
def papaParseModel (content : String) : CsvResult :=
  let lines := (splitLines content).filter (fun l => l ≠ "")
  match lines with
  | [] => ⟨[], [], ",", []⟩
  | h :: rest =>
    let fields := csvCells h.data
    let rows := rest.map (fun line =>
      ((fields.zip (csvCells line.data)).map (fun fc => (fc.1, JValue.str fc.2))))
    let errs := rest.filterMap (fun line =>
      if (csvCells line.data).length = fields.length then none else some "FieldMismatch")
    ⟨rows, fields, ",", errs⟩

/-- The `papaparse` oracle instantiated with the concrete model (the library
itself does not throw on string input). -/
def papaModel : String → Except String CsvResult := fun content => .ok (papaParseModel content)

/-! ## Document parser service -/

/-- Open metadata mapping attached to parsed documents. -/
abbrev MetaMap := List (String × JValue)

/-- First-match key lookup in a metadata mapping. -/
def lookupMeta (k : String) : MetaMap → Option JValue
  | [] => none
  | (k2, v) :: rest => if k2 = k then some v else lookupMeta k rest

/-- Output of extraction: normalized text plus metadata. -/
structure ParsedDoc where
  content : String
  metadata : MetaMap

/-- The supported extension set of the per-extension dispatch. -/
def supportedExts : List String := [".pdf", ".csv", ".txt", ".json"]

/-- `join('\n')` over strings. -/
def joinNl : List String → String
  | [] => ""
  | [s] => s
  | s :: rest => s ++ "\n" ++ joinNl rest

/-- `csvData.data.map((row) => JSON.stringify(row)).join('\n')`. -/
def csvTextOf (r : CsvResult) : String :=
  joinNl (r.rows.map (fun row => (⟨jWrite (.obj row)⟩ : String)))

/-- The metadata the `.csv` branch assembles. -/
def csvMeta (fileName : String) (r : CsvResult) : MetaMap :=
  [("source", .str fileName), ("rowCount", .num r.rows.length),
   ("fields", .arr (r.fields.map JValue.str)), ("delimiter", .str r.delim)]
  ++ (if r.errs = [] then [] else [("parseErrors", .arr (r.errs.map JValue.str))])

/-- `DocumentParserService.parseContentFromString`: dispatch on the lowercased
extension; PDF and CSV library failures are absorbed into placeholder text;
a JSON parse failure falls back to the raw content; unknown extensions pass
the content through.  Every branch catches its soft failures, so the
function always returns `.ok`. -/
def parseContentFromString (pdfP : PdfInput → Except String PdfData)
    (csvP : String → Except String CsvResult)
    (content : String) (fileName : String) : Except PipeError ParsedDoc :=
  let fileExtension := lowerStr (extname fileName)
  if fileExtension = ".pdf" then
    match pdfP (pdfInputOf content) with
    | .ok d =>
      .ok ⟨d.text, [("source", .str fileName), ("pageCount", .num d.numpages), ("info", d.info)]⟩
    | .error msg =>
      .ok ⟨"Failed to parse PDF content. Error: " ++ msg, [("source", .str fileName)]⟩
  else if fileExtension = ".csv" then
    match csvP content with
    | .ok r => .ok ⟨csvTextOf r, csvMeta fileName r⟩
    | .error msg =>
      .ok ⟨"Failed to parse CSV content. Error: " ++ msg, [("source", .str fileName)]⟩
  else if fileExtension = ".txt" then .ok ⟨content, [("source", .str fileName)]⟩
  else if fileExtension = ".json" then
    match jsonParse content with
    | some v => .ok ⟨jsonStringify v, [("source", .str fileName)]⟩
    | none => .ok ⟨content, [("source", .str fileName)]⟩
  else .ok ⟨content, [("source", .str fileName)]⟩

/-- `DocumentParserService.parseDocument`: the path-based variant.  It reads
the file first, soft-fails only for PDF and CSV, re-raises `JSON.parse`
failures, and throws `Unsupported file type` for any other extension. -/
def parseDocument (fsRead : String → Except String String)
    (pdfP : PdfInput → Except String PdfData)
    (csvP : String → Except String CsvResult)
    (filePath : String) : Except PipeError ParsedDoc :=
  let fileExtension := lowerStr (extname filePath)
  let fileName := basename filePath
  match fsRead filePath with
  | .error msg => .error (.fsError msg)
  | .ok fileBuffer =>
    if fileExtension = ".pdf" then
      match pdfP (.raw fileBuffer) with
      | .ok d =>
        .ok ⟨d.text, [("source", .str fileName), ("pageCount", .num d.numpages), ("info", d.info)]⟩
      | .error msg =>
        .ok ⟨"Failed to parse PDF file. Error: " ++ msg, [("source", .str fileName)]⟩
    else if fileExtension = ".csv" then
      match csvP fileBuffer with
      | .ok r => .ok ⟨csvTextOf r, csvMeta fileName r⟩
      | .error msg =>
        .ok ⟨"Failed to parse CSV file. Error: " ++ msg, [("source", .str fileName)]⟩
    else if fileExtension = ".txt" then .ok ⟨fileBuffer, [("source", .str fileName)]⟩
    else if fileExtension = ".json" then
      match jsonParse fileBuffer with
      | some v => .ok ⟨jsonStringify v, [("source", .str fileName)]⟩
      | none => .error .jsonSyntaxError
    else .error (.unsupportedFormat fileExtension)

/-! ## Embedding service -/

/-- One unit of work handed to the batch builder. -/
structure SourceDoc where
  id : String
  content : String
  metadata : MetaMap

/-- A record ready for the vector index. -/
structure EmbeddingRecord where
  id : String
  values : List ℚ
  metadata : MetaMap

/-- JS whitespace removed by `String.prototype.trim`. -/
def jsTrimSpace (c : Char) : Bool :=
  jsSpace c || c = '\x0b' || c = '\x0c'

/-- `!text || text.trim().length === 0`. -/
def trimEmpty (s : String) : Bool := s.data.all jsTrimSpace

/-- `EmbeddingService.getEmbedding`: empty or whitespace-only text yields the
empty vector; otherwise the external provider is invoked and its failure is
re-raised as-is. -/
def getEmbedding (provider : String → Except String (List ℚ)) (text : String) :
    Except String (List ℚ) :=
  if trimEmpty text then .ok [] else provider text

/-- `EmbeddingService.getEmbeddingsForDocuments`: embed each document in
order, keep only records with a non-empty vector, abort on the first
provider failure. -/
def getEmbeddingsForDocuments (provider : String → Except String (List ℚ)) :
    List SourceDoc → Except String (List EmbeddingRecord)
  | [] => .ok []
  | doc :: rest =>
    match getEmbedding provider doc.content with
    | .error e => .error e
    | .ok embedding =>
      match getEmbeddingsForDocuments provider rest with
      | .error e => .error e
      | .ok tail =>
        .ok (if embedding.length > 0 then ⟨doc.id, embedding, doc.metadata⟩ :: tail else tail)

/-- `const placeholderDimension = 1536` in `embedding.service`. -/
def placeholderDimension : Nat := 1536

/-- The placeholder embedding of `getEmbedding`:
`Array(placeholderDimension).fill(0).map(() => Math.random())`, with `rng`
modelling `Math.random`; it never throws. -/
def placeholderProvider (rng : Nat → ℚ) : String → Except String (List ℚ) :=
  fun _ => .ok ((List.range placeholderDimension).map rng)

/-! ## Pinecone service -/

/-- `dimension: 1536` passed to `createIndex` in `pinecone.service`. -/
def pineconeIndexDimension : Nat := 1536

/-- Observable outcome of an upsert call: the returned result and the list of
batches actually handed to the external index. -/
structure UpsertOutcome where
  result : Except String Unit
  calls : List (List EmbeddingRecord)

/-- `PineconeService.upsertVectors`: with no initialized index handle it logs
and returns (no throw, no index call); otherwise it forwards the batch and
re-raises the index's failure. -/
def upsertVectors (ixUpsert : List EmbeddingRecord → Except String Unit)
    (index : Option Unit) (vectors : List EmbeddingRecord) : UpsertOutcome :=
  match index with
  | none => ⟨.ok (), []⟩
  | some _ =>
    match ixUpsert vectors with
    | .ok _ => ⟨.ok (), [vectors]⟩
    | .error e => ⟨.error e, [vectors]⟩

/-! ## S3 service: locator parsing and download -/

/-- Parts of a parsed URL that `downloadFileContentFromUrl` inspects. -/
structure URLParts where
  protocol : String
  hostname : String
  pathname : String
deriving DecidableEq

/-- A plausible URL scheme: a letter, then letters, digits, `+`, `-`, `.`. -/
def schemeOk (l : List Char) : Bool :=
  match l with
  | [] => false
  | c :: cs => c.isAlpha && cs.all (fun x => x.isAlphanum || x = '+' || x = '-' || x = '.')

/-- Schemes the WHATWG standard treats as special (non-empty host, `/` path). -/
def specialScheme (p : String) : Bool :=
  p = "http:" || p = "https:" || p = "ws:" || p = "wss:" || p = "ftp:" || p = "file:"

/-- Simplified model of the WHATWG `new URL(s)` constructor for
authority-style URLs (`scheme://authority/path`): lowercased scheme and
host, userinfo and port stripped from the authority, pathname cut at the
query or fragment, and `/` as the default pathname of special schemes. -/
def parseURL (s : String) : Option URLParts :=
  let l := s.data
  let scheme := l.takeWhile (fun c => c ≠ ':')
  if !schemeOk scheme then none
  else
    match l.drop scheme.length with
    | ':' :: '/' :: '/' :: r =>
      let auth := r.takeWhile (fun c => c ≠ '/' && c ≠ '?' && c ≠ '#')
      let after := r.drop auth.length
      let host := (lastPart '@' auth).takeWhile (fun c => c ≠ ':')
      let protocol : String := ⟨scheme.map Char.toLower ++ [':']⟩
      let hostLow : String := ⟨host.map Char.toLower⟩
      if specialScheme protocol && hostLow = "" then none
      else
        let pathname : String :=
          match after with
          | '/' :: _ => ⟨after.takeWhile (fun c => c ≠ '?' && c ≠ '#')⟩
          | _ => if specialScheme protocol then "/" else ""
        some ⟨protocol, hostLow, pathname⟩
    | _ => none

/-- The locator-parsing half of `S3Service.downloadFileContentFromUrl`: the
virtual-hosted branch, the `s3:` branch and the fallback branch each take
the pathname without its leading slash; an empty key throws. -/
def s3KeyFromUrl (s3Url : String) : Except PipeError String :=
  match parseURL s3Url with
  | none => .error .invalidUrl
  | some parsedUrl =>
    let s3Key :=
      if strEnds parsedUrl.hostname ".s3.amazonaws.com"
          || strHas parsedUrl.hostname ".s3-website" then
        stripLeadingSlash parsedUrl.pathname
      else if parsedUrl.protocol = "s3:" then
        stripLeadingSlash parsedUrl.pathname
      else
        stripLeadingSlash parsedUrl.pathname
    if s3Key = "" then .error .invalidLocator
    else .ok s3Key

/-- What `downloadFileContentFromUrl` resolves and returns. -/
structure DownloadResult where
  content : String
  s3Key : String
  originalFileName : String
deriving DecidableEq

/-- `S3Service.downloadFileContentFromUrl`, with the S3 fetch
(`getFileContentAsString`, including configuration checks and the
empty-body throw) as the `store` oracle. -/
def downloadFileContentFromUrl (store : String → Except String String)
    (s3Url : String) : Except PipeError DownloadResult :=
  match s3KeyFromUrl s3Url with
  | .error e => .error e
  | .ok s3Key =>
    match store s3Key with
    | .error e => .error (.s3Error e)
    | .ok content => .ok ⟨content, s3Key, basename s3Key⟩

/-! ## Ingestion orchestrator -/

/-- The external collaborators of one ingestion request. -/
structure Env where
  store : String → Except String String
  pdfP : PdfInput → Except String PdfData
  csvP : String → Except String CsvResult
  provider : String → Except String (List ℚ)
  indexReady : Bool
  ixUpsert : List EmbeddingRecord → Except String Unit

/-- `KnowledgeIngestionService.generateAndStoreEmbeddings`: build the single
logical document (metadata extended with provenance), embed it as a
one-element batch, throw when zero vectors come back, then upsert. -/
def generateAndStoreEmbeddings (env : Env) (content : String) (metadata : MetaMap)
    (documentId s3ObjectUrl originalFileName : String) : Except PipeError String :=
  let documentForEmbedding : SourceDoc :=
    ⟨documentId, content,
      metadata ++ [("s3_url", .str s3ObjectUrl), ("original_filename", .str originalFileName)]⟩
  match getEmbeddingsForDocuments env.provider [documentForEmbedding] with
  | .error e => .error (.providerError e)
  | .ok vectorsToUpsert =>
    if vectorsToUpsert.length = 0 then .error (.embeddingFailed documentId)
    else
      match (upsertVectors env.ixUpsert (if env.indexReady then some () else none)
          vectorsToUpsert).result with
      | .error e => .error (.upsertError e)
      | .ok _ => .ok documentId

/-- `KnowledgeIngestionService.processDocumentFromS3`: download, parse
(`parseDocumentContent` is a logging re-raise wrapper around
`parseContentFromString`), embed and store; every failure propagates. -/
def processDocumentFromS3 (env : Env) (s3ObjectUrl : String) : Except PipeError String :=
  match downloadFileContentFromUrl env.store s3ObjectUrl with
  | .error e => .error e
  | .ok dl =>
    match parseContentFromString env.pdfP env.csvP dl.content dl.originalFileName with
    | .error e => .error e
    | .ok parsedDocument =>
      generateAndStoreEmbeddings env parsedDocument.content parsedDocument.metadata
        dl.s3Key s3ObjectUrl dl.originalFileName


/-! ## Concrete oracles for witnesses, and small auxiliary definitions -/

/-- A remainder list that cannot extend a number literal: empty or headed by a
non-digit. -/
def delimOk : List Char → Bool
  | [] => true
  | c :: _ => !isDig c

/-- A PDF oracle that always fails (used to instantiate claims that never
reach the PDF branch, and malformed-PDF scenarios). -/
def pdfNone : PdfInput → Except String PdfData := fun _ => .error "bad xref"

/-- A CSV oracle that always fails (used for malformed-CSV scenarios). -/
def csvNone : String → Except String CsvResult := fun _ => .error "bad delimiter"

/-- A provider failing only on the text `"boom"`. -/
def provBoom : String → Except String (List ℚ) :=
  fun t => if t = "boom" then .error "provider down" else .ok [1]

/-- An environment whose store holds one empty `.txt` object under the key
`f.txt`; the index is live and the upsert succeeds. -/
def env0 : Env :=
  ⟨fun k => if k = "f.txt" then .ok "" else .error "NoSuchKey",
   pdfNone, papaModel, provBoom, true, fun _ => .ok ()⟩

/-! ## Helper lemmas -/

theorem strData_append (s t : String) : (s ++ t).data = s.data ++ t.data := by
  cases s; cases t; rfl

/-- Both extraction variants put `source` first in the metadata, so the lookup
always recovers the file name (string-based variant). -/
theorem parseContentFromString_source (pdfP : PdfInput → Except String PdfData)
    (csvP : String → Except String CsvResult) (content fileName : String) (r : ParsedDoc)
    (h : parseContentFromString pdfP csvP content fileName = .ok r) :
    lookupMeta "source" r.metadata = some (.str fileName) := by
  simp only [parseContentFromString] at h
  repeat' split at h
  all_goals first
  | (injection h with h2; subst h2; simp [lookupMeta])
  | exact absurd h (by simp)

/-- Both extraction variants put `source` first in the metadata, so the lookup
always recovers the file name (path-based variant, via the basename). -/
theorem parseDocument_source (fsRead : String → Except String String)
    (pdfP : PdfInput → Except String PdfData)
    (csvP : String → Except String CsvResult) (filePath : String) (r : ParsedDoc)
    (h : parseDocument fsRead pdfP csvP filePath = .ok r) :
    lookupMeta "source" r.metadata = some (.str (basename filePath)) := by
  simp only [parseDocument] at h
  repeat' split at h
  all_goals first
  | (injection h with h2; subst h2; simp [lookupMeta])
  | exact absurd h (by simp)

/-! ## C10 -/

/-- Claim C10: with no initialized index handle, `upsertVectors` returns without
raising and without calling the external index, and its result is the same
as that of a successful upsert, so a caller cannot tell the two apart. -/
theorem upsert_uninitialized_silent
    (ixUpsert : List EmbeddingRecord → Except String Unit)
    (vectors : List EmbeddingRecord)
    (ixUpsert2 : List EmbeddingRecord → Except String Unit)
    (vectors2 : List EmbeddingRecord)
    (hok : ixUpsert2 vectors2 = .ok ()) :
    (upsertVectors ixUpsert none vectors).result = .ok () ∧
    (upsertVectors ixUpsert none vectors).calls = [] ∧
    (upsertVectors ixUpsert none vectors).result
      = (upsertVectors ixUpsert2 (some ()) vectors2).result := by
  refine ⟨rfl, rfl, ?_⟩
  simp [upsertVectors, hok]

theorem upsert_uninitialized_silent_witness :
    (upsertVectors (fun _ => .ok ()) none []).result = .ok () ∧
    (upsertVectors (fun _ => .ok ()) none []).calls = [] ∧
    (upsertVectors (fun _ => .ok ()) none []).result
      = (upsertVectors (fun _ => .ok ()) (some ()) []).result :=
  upsert_uninitialized_silent (fun _ => .ok ()) [] (fun _ => .ok ()) [] rfl

/-! ## C5 -/

/-- Claim C5: an extension outside `{.pdf, .csv, .txt, .json}` makes the
path-based `parseDocument` fail hard with the unsupported-format error,
while the string-based `parseContentFromString` passes the raw content
through unchanged with only `source` metadata. -/
theorem unsupported_ext_hard_vs_soft
    (fsRead : String → Except String String) (pdfP : PdfInput → Except String PdfData)
    (csvP : String → Except String CsvResult) (filePath content fileName raw : String)
    (hext : lowerStr (extname filePath) ∉ supportedExts)
    (hfs : fsRead filePath = .ok content)
    (hext2 : lowerStr (extname fileName) ∉ supportedExts) :
    parseDocument fsRead pdfP csvP filePath
      = .error (.unsupportedFormat (lowerStr (extname filePath))) ∧
    parseContentFromString pdfP csvP raw fileName = .ok ⟨raw, [("source", .str fileName)]⟩ := by
  simp only [supportedExts, List.mem_cons, List.not_mem_nil, or_false, not_or] at hext hext2
  obtain ⟨hp, hc, ht, hj⟩ := hext
  obtain ⟨hp2, hc2, ht2, hj2⟩ := hext2
  constructor
  · simp only [parseDocument, hfs]
    simp [hp, hc, ht, hj]
  · simp only [parseContentFromString]
    simp [hp2, hc2, ht2, hj2]

theorem unsupported_ext_hard_vs_soft_witness :
    parseDocument (fun _ => .ok "hello") pdfNone papaModel "f.xyz"
      = .error (.unsupportedFormat (lowerStr (extname "f.xyz"))) ∧
    parseContentFromString pdfNone papaModel "raw" "g.zip"
      = .ok ⟨"raw", [("source", .str "g.zip")]⟩ :=
  unsupported_ext_hard_vs_soft (fun _ => .ok "hello") pdfNone papaModel
    "f.xyz" "hello" "g.zip" "raw" (by decide) rfl (by decide)

/-! ## C6 -/

/-- Claim C6: whenever either extraction variant returns a parsed document, its
metadata `source` entry is the original file name (the basename of the path
for the path-based variant). -/
theorem metadata_source_invariant
    (pdfP : PdfInput → Except String PdfData) (csvP : String → Except String CsvResult)
    (fsRead : String → Except String String)
    (content fileName filePath : String) (r1 r2 : ParsedDoc)
    (h1 : parseContentFromString pdfP csvP content fileName = .ok r1)
    (h2 : parseDocument fsRead pdfP csvP filePath = .ok r2) :
    lookupMeta "source" r1.metadata = some (.str fileName) ∧
    lookupMeta "source" r2.metadata = some (.str (basename filePath)) :=
  ⟨parseContentFromString_source pdfP csvP content fileName r1 h1,
   parseDocument_source fsRead pdfP csvP filePath r2 h2⟩

theorem metadata_source_invariant_witness :
    lookupMeta "source" (ParsedDoc.mk "x" [("source", .str "a.txt")]).metadata
      = some (.str "a.txt") ∧
    lookupMeta "source" (ParsedDoc.mk "1" [("source", .str "b.json")]).metadata
      = some (.str (basename "dir/b.json")) :=
  metadata_source_invariant pdfNone papaModel (fun _ => .ok "1") "x" "a.txt" "dir/b.json"
    (ParsedDoc.mk "x" [("source", .str "a.txt")])
    (ParsedDoc.mk "1" [("source", .str "b.json")]) rfl rfl

/-! ## C2 -/

/-- Claim C2: the three locator shapes all resolve to the key
`path/to/file.pdf`, and any parsed URL whose pathname strips to the empty
key makes `s3KeyFromUrl` fail with the invalid-locator error. -/
theorem locatorParsing_shapes_and_emptyKey
    (s : String) (u : URLParts) (hp : parseURL s = some u)
    (hkey : stripLeadingSlash u.pathname = "") :
    s3KeyFromUrl "https://bucket.s3.us-east-1.domain/path/to/file.pdf" = .ok "path/to/file.pdf" ∧
    s3KeyFromUrl "s3://bucket/path/to/file.pdf" = .ok "path/to/file.pdf" ∧
    s3KeyFromUrl "https://custom.domain/path/to/file.pdf" = .ok "path/to/file.pdf" ∧
    s3KeyFromUrl s = .error .invalidLocator := by
  refine ⟨rfl, rfl, rfl, ?_⟩
  simp only [s3KeyFromUrl, hp]
  split <;> simp [hkey]

theorem locatorParsing_shapes_and_emptyKey_witness :
    s3KeyFromUrl "https://bucket.s3.us-east-1.domain/path/to/file.pdf" = .ok "path/to/file.pdf" ∧
    s3KeyFromUrl "s3://bucket/path/to/file.pdf" = .ok "path/to/file.pdf" ∧
    s3KeyFromUrl "https://custom.domain/path/to/file.pdf" = .ok "path/to/file.pdf" ∧
    s3KeyFromUrl "https://x.test" = .error .invalidLocator :=
  locatorParsing_shapes_and_emptyKey "https://x.test" ⟨"https:", "x.test", "/"⟩ rfl rfl

/-! ## C7 -/

/-- Claim C7: extracting the CSV content `a,b\n1,2\n3,4` yields a row count of
two, the header fields `a` and `b`, and text made of exactly two
newline-joined lines carrying the two rows' key-value pairs. -/
theorem csv_extract_concrete :
    ∃ r, parseContentFromString pdfNone papaModel "a,b\n1,2\n3,4" "f.csv" = .ok r ∧
      lookupMeta "rowCount" r.metadata = some (.num 2) ∧
      lookupMeta "fields" r.metadata = some (.arr [.str "a", .str "b"]) ∧
      splitLines r.content = ["\x7b\"a\":\"1\",\"b\":\"2\"\x7d", "\x7b\"a\":\"3\",\"b\":\"4\"\x7d"] ∧
      strHas "\x7b\"a\":\"1\",\"b\":\"2\"\x7d" "\"a\":\"1\"" = true ∧
      strHas "\x7b\"a\":\"1\",\"b\":\"2\"\x7d" "\"b\":\"2\"" = true ∧
      strHas "\x7b\"a\":\"3\",\"b\":\"4\"\x7d" "\"a\":\"3\"" = true ∧
      strHas "\x7b\"a\":\"3\",\"b\":\"4\"\x7d" "\"b\":\"4\"" = true := by
  refine ⟨_, rfl, ?_, ?_, ?_, ?_, ?_, ?_, ?_⟩ <;> rfl

/-! ## C4 -/

/-- A batch whose documents all have whitespace-only content produces no
records at all. -/
theorem embedBatch_all_ws (provider : String → Except String (List ℚ)) :
    ∀ docs : List SourceDoc, (∀ d ∈ docs, trimEmpty d.content = true) →
    getEmbeddingsForDocuments provider docs = .ok []
  | [], _ => rfl
  | doc :: rest, h => by
    have hdoc : trimEmpty doc.content = true := h doc (by simp)
    have hrest := embedBatch_all_ws provider rest (fun x hx => h x (by simp [hx]))
    simp [getEmbeddingsForDocuments, getEmbedding, hdoc, hrest]

/-- A provider failure mid-batch aborts the whole batch with the provider's
error, whatever documents follow, as long as the earlier documents are
skipped or embedded successfully. -/
theorem embedBatch_abort (provider : String → Except String (List ℚ))
    (d : SourceDoc) (post : List SourceDoc) (e : String)
    (hd : trimEmpty d.content = false) (he : provider d.content = .error e) :
    ∀ pre : List SourceDoc,
      (∀ x ∈ pre, (trimEmpty x.content || (provider x.content).isOk) = true) →
      getEmbeddingsForDocuments provider (pre ++ d :: post) = .error e
  | [], _ => by simp [getEmbeddingsForDocuments, getEmbedding, hd, he]
  | x :: pre, h => by
    have hrest := embedBatch_abort provider d post e hd he pre (fun y hy => h y (by simp [hy]))
    have hx := h x (by simp)
    rw [Bool.or_eq_true] at hx
    rcases hx with hws | hok
    · simp [List.cons_append, getEmbeddingsForDocuments, getEmbedding, hws, hrest]
    · by_cases hws : trimEmpty x.content
      · simp [List.cons_append, getEmbeddingsForDocuments, getEmbedding, hws, hrest]
      · cases hpx : provider x.content with
        | error e2 => rw [hpx] at hok; simp [Except.isOk, Except.toBool] at hok
        | ok v =>
          simp [List.cons_append, getEmbeddingsForDocuments, getEmbedding, hws, hpx, hrest]

/-- Claim C4: the batch builder silently skips every document with empty or
whitespace-only content (an all-skipped batch yields the empty record
list), and a provider failure on a later document raises that error with
no partial record list for the batch. -/
theorem embedBatch_skip_empty_abort_on_failure
    (provider : String → Except String (List ℚ)) (docs : List SourceDoc)
    (pre post : List SourceDoc) (d : SourceDoc) (e : String)
    (hall : ∀ x ∈ docs, trimEmpty x.content = true)
    (hpre : ∀ x ∈ pre, (trimEmpty x.content || (provider x.content).isOk) = true)
    (hd : trimEmpty d.content = false)
    (he : provider d.content = .error e) :
    getEmbeddingsForDocuments provider docs = .ok [] ∧
    getEmbeddingsForDocuments provider (pre ++ d :: post) = .error e :=
  ⟨embedBatch_all_ws provider docs hall, embedBatch_abort provider d post e hd he pre hpre⟩

theorem embedBatch_skip_empty_abort_on_failure_witness :
    getEmbeddingsForDocuments provBoom [⟨"a", " ", []⟩] = .ok [] ∧
    getEmbeddingsForDocuments provBoom
      ([⟨"p", "hello", []⟩] ++ ⟨"x", "boom", []⟩ :: []) = .error "provider down" :=
  embedBatch_skip_empty_abort_on_failure provBoom [⟨"a", " ", []⟩] [⟨"p", "hello", []⟩] []
    ⟨"x", "boom", []⟩ "provider down" (by decide) (by decide) (by decide) rfl

/-! ## C9 -/

/-- With the placeholder provider the batch builder returns exactly one
record per non-skipped document, each carrying the fixed-dimension vector
and the document's id and metadata. -/
theorem placeholder_embed_eq (rng : Nat → ℚ) : ∀ docs : List SourceDoc,
    getEmbeddingsForDocuments (placeholderProvider rng) docs
      = .ok ((docs.filter (fun d => !trimEmpty d.content)).map
          (fun d => ⟨d.id, (List.range placeholderDimension).map rng, d.metadata⟩))
  | [] => rfl
  | doc :: rest => by
    have ih := placeholder_embed_eq rng rest
    by_cases hws : trimEmpty doc.content
    · simp [getEmbeddingsForDocuments, getEmbedding, hws, ih, List.filter]
    · simp [getEmbeddingsForDocuments, getEmbedding, hws, ih, List.filter,
        placeholderProvider, placeholderDimension]

/-- Claim C9: every record the batch builder produces carries a vector of the
one fixed length 1536 that matches the index dimensionality (so any two
records have equal vector lengths), and each record's id and metadata are
those of its source document. -/
theorem embedding_record_dim_and_id (rng : Nat → ℚ) (docs : List SourceDoc)
    (recs : List EmbeddingRecord)
    (h : getEmbeddingsForDocuments (placeholderProvider rng) docs = .ok recs) :
    (∀ r ∈ recs, r.values.length = placeholderDimension ∧
      ∃ d ∈ docs, r.id = d.id ∧ r.metadata = d.metadata) ∧
    (∀ r1 ∈ recs, ∀ r2 ∈ recs, r1.values.length = r2.values.length) ∧
    placeholderDimension = pineconeIndexDimension := by
  rw [placeholder_embed_eq rng docs] at h
  injection h with h2
  subst h2
  refine ⟨?_, ?_, rfl⟩
  · intro r hr
    rw [List.mem_map] at hr
    obtain ⟨d, hd, rfl⟩ := hr
    exact ⟨by simp, d, List.mem_of_mem_filter hd, rfl, rfl⟩
  · intro r1 h1 r2 h2
    rw [List.mem_map] at h1 h2
    obtain ⟨d1, _, rfl⟩ := h1
    obtain ⟨d2, _, rfl⟩ := h2
    simp

theorem embedding_record_dim_and_id_witness :
    (∀ r ∈ ([] : List EmbeddingRecord), r.values.length = placeholderDimension ∧
      ∃ d ∈ [(⟨"a", "", []⟩ : SourceDoc)], r.id = d.id ∧ r.metadata = d.metadata) ∧
    (∀ r1 ∈ ([] : List EmbeddingRecord), ∀ r2 ∈ ([] : List EmbeddingRecord),
      r1.values.length = r2.values.length) ∧
    placeholderDimension = pineconeIndexDimension :=
  embedding_record_dim_and_id (fun _ => 0) [⟨"a", "", []⟩] [] rfl

/-! ## C1 -/

/-- Claim C1 counterexample: a request whose extraction yields empty text but
non-empty metadata (the `source` entry is always present) still fails, so
the state with both text and metadata empty is not the one unrecoverable
extraction state, and no distinct empty-document check exists: the failure
is the zero-embeddings throw of `generateAndStoreEmbeddings`. -/
theorem emptyText_fails_with_nonempty_metadata :
    parseContentFromString env0.pdfP env0.csvP "" "f.txt"
      = .ok ⟨"", [("source", .str "f.txt")]⟩ ∧
    ([("source", JValue.str "f.txt")] : MetaMap) ≠ [] ∧
    processDocumentFromS3 env0 "s3://bucket/f.txt" = .error (.embeddingFailed "f.txt") := by
  refine ⟨rfl, by simp, rfl⟩

/-- Claim C1 amended: extraction metadata always contains `source` and so is
never empty; whenever the locator resolves and the download succeeds but
the extracted text is empty or whitespace-only, the orchestrator fails
with the zero-embeddings error for the resolved key (the code has no
separate both-empty check). -/
theorem emptyText_orchestration_fails
    (env : Env) (url : String) (dl : DownloadResult) (pd : ParsedDoc)
    (hdl : downloadFileContentFromUrl env.store url = .ok dl)
    (hpd : parseContentFromString env.pdfP env.csvP dl.content dl.originalFileName = .ok pd)
    (hws : trimEmpty pd.content = true) :
    processDocumentFromS3 env url = .error (.embeddingFailed dl.s3Key) ∧
    lookupMeta "source" pd.metadata = some (.str dl.originalFileName) := by
  constructor
  · simp only [processDocumentFromS3, hdl, hpd]
    simp [generateAndStoreEmbeddings, getEmbeddingsForDocuments, getEmbedding, hws]
  · exact parseContentFromString_source _ _ _ _ _ hpd

theorem emptyText_orchestration_fails_witness :
    processDocumentFromS3 env0 "s3://bucket/f.txt" = .error (.embeddingFailed "f.txt") ∧
    lookupMeta "source" (ParsedDoc.mk "" [("source", .str "f.txt")]).metadata
      = some (.str "f.txt") := by
  have h := emptyText_orchestration_fails env0 "s3://bucket/f.txt" ⟨"", "f.txt", "f.txt"⟩
    ⟨"", [("source", .str "f.txt")]⟩ rfl rfl rfl
  exact h

/-! ## C3 -/

/-- A prefix of a list is a prefix of any extension of it. -/
theorem listHasPre_ext : ∀ (p l l2 : List Char), listHasPre p l = true → listHasPre p (l ++ l2) = true
  | [], _, _, _ => rfl
  | p :: ps, [], l2, h => by simp [listHasPre] at h
  | p :: ps, c :: cs, l2, h => by
    simp only [listHasPre, Bool.and_eq_true, List.cons_append] at h ⊢
    exact ⟨h.1, listHasPre_ext ps cs l2 h.2⟩

/-- The empty pattern occurs in every text. -/
theorem listFind_nil_pat : ∀ l : List Char, listFind [] l = true := by
  intro l
  cases l <;> simp [listFind, listHasPre]

/-- A pattern occurring in a text occurs in any extension of the text. -/
theorem listFind_mono : ∀ (l l2 pat : List Char), listFind pat l = true → listFind pat (l ++ l2) = true
  | [], l2, pat, h => by
    simp only [listFind, List.isEmpty_iff] at h
    subst h
    simp [listFind_nil_pat]
  | c :: cs, l2, pat, h => by
    simp only [listFind, Bool.or_eq_true, List.cons_append] at h ⊢
    rcases h with h | h
    · exact Or.inl (listHasPre_ext pat (c :: cs) l2 h)
    · exact Or.inr (listFind_mono cs l2 pat h)

/-- A pattern found in the lowercased left part is found in the lowercased
concatenation. -/
theorem strHas_lower_prefix (a b pat : String)
    (h : listFind pat.data (lowerStr a).data = true) :
    strHas (lowerStr (a ++ b)) pat = true := by
  rw [strHas]
  have hdata : (lowerStr (a ++ b)).data = (lowerStr a).data ++ (lowerStr b).data := by
    simp [lowerStr, strData_append]
  rw [hdata]
  exact listFind_mono _ _ _ h

/-- A string with a non-empty left part of an append is non-empty. -/
theorem append_ne_empty_left (a b : String) (h : a.data ≠ []) : a ++ b ≠ "" := by
  intro he
  have hd : a.data ++ b.data = ([] : List Char) := by
    have := congrArg String.data he
    rw [strData_append] at this
    exact this
  exact h (List.append_eq_nil.mp hd).1

/-- The string-based extractor catches every library failure, so it is total. -/
theorem parseContentFromString_total (pdfP : PdfInput → Except String PdfData)
    (csvP : String → Except String CsvResult) (content fileName : String) :
    ∃ r, parseContentFromString pdfP csvP content fileName = .ok r := by
  simp only [parseContentFromString]
  repeat' split
  all_goals exact ⟨_, rfl⟩

/-- Claim C3: the string-based extractor never raises for `.txt`, `.json` or
unsupported extensions, and a malformed `.pdf` or `.csv` input (one the
external library rejects) yields, without raising, non-empty placeholder
text whose lowercasing contains the word `error`. -/
theorem extract_never_raises_and_soft_fail_markers :
    (∀ (pdfP : PdfInput → Except String PdfData) (csvP : String → Except String CsvResult)
      (content fileName : String),
        lowerStr (extname fileName) = ".txt" ∨ lowerStr (extname fileName) = ".json" ∨
          lowerStr (extname fileName) ∉ supportedExts →
        ∃ r, parseContentFromString pdfP csvP content fileName = .ok r) ∧
    (∀ (pdfP : PdfInput → Except String PdfData) (csvP : String → Except String CsvResult)
      (content fileName msg : String),
        lowerStr (extname fileName) = ".pdf" → pdfP (pdfInputOf content) = .error msg →
        ∃ r, parseContentFromString pdfP csvP content fileName = .ok r ∧
          r.content ≠ "" ∧ strHas (lowerStr r.content) "error" = true) ∧
    (∀ (pdfP : PdfInput → Except String PdfData) (csvP : String → Except String CsvResult)
      (content fileName msg : String),
        lowerStr (extname fileName) = ".csv" → csvP content = .error msg →
        ∃ r, parseContentFromString pdfP csvP content fileName = .ok r ∧
          r.content ≠ "" ∧ strHas (lowerStr r.content) "error" = true) := by
  refine ⟨?_, ?_, ?_⟩
  · intro pdfP csvP content fileName _
    exact parseContentFromString_total pdfP csvP content fileName
  · intro pdfP csvP content fileName msg hext hpdf
    refine ⟨⟨"Failed to parse PDF content. Error: " ++ msg, [("source", .str fileName)]⟩, ?_, ?_, ?_⟩
    · simp [parseContentFromString, hext, hpdf]
    · exact append_ne_empty_left _ msg (by decide)
    · exact strHas_lower_prefix _ msg "error" (by decide)
  · intro pdfP csvP content fileName msg hext hcsv
    have hne : lowerStr (extname fileName) ≠ ".pdf" := by rw [hext]; decide
    refine ⟨⟨"Failed to parse CSV content. Error: " ++ msg, [("source", .str fileName)]⟩, ?_, ?_, ?_⟩
    · simp [parseContentFromString, hext, hne, hcsv]
    · exact append_ne_empty_left _ msg (by decide)
    · exact strHas_lower_prefix _ msg "error" (by decide)

theorem extract_never_raises_and_soft_fail_markers_witness :
    ∃ r, parseContentFromString pdfNone csvNone "garbage-bytes" "f.pdf" = .ok r ∧
      r.content ≠ "" ∧ strHas (lowerStr r.content) "error" = true :=
  (extract_never_raises_and_soft_fail_markers).2.1 pdfNone csvNone "garbage-bytes" "f.pdf"
    "bad xref" (by decide) rfl

/-! ## C8: digit and number lemmas -/

/-- The digit character of a value below ten carries that value. -/
theorem dChar_spec : ∀ d : Nat, d < 10 → digVal (dChar d) = d ∧ isDig (dChar d) = true := by
  decide

/-- A digit character is none of the parser's structural characters. -/
theorem isDig_props {c : Char} (h : isDig c = true) :
    jsSpace c = false ∧ c ≠ '-' ∧ c ≠ ']' ∧ c ≠ '}' ∧ c ≠ ',' ∧ c ≠ ':'
      ∧ c ≠ 'n' ∧ c ≠ 'f' ∧ c ≠ 't' ∧ c ≠ '"' ∧ c ≠ '{' ∧ c ≠ '[' := by
  have k : ∀ x : Char, c = x → isDig x = true := fun x hx => hx ▸ h
  refine ⟨?_, fun hc => absurd (k _ hc) (by decide), fun hc => absurd (k _ hc) (by decide),
    fun hc => absurd (k _ hc) (by decide), fun hc => absurd (k _ hc) (by decide),
    fun hc => absurd (k _ hc) (by decide), fun hc => absurd (k _ hc) (by decide),
    fun hc => absurd (k _ hc) (by decide), fun hc => absurd (k _ hc) (by decide),
    fun hc => absurd (k _ hc) (by decide), fun hc => absurd (k _ hc) (by decide),
    fun hc => absurd (k _ hc) (by decide)⟩
  cases hsp : jsSpace c
  · rfl
  · exfalso
    simp only [jsSpace, Bool.or_eq_true, decide_eq_true_eq] at hsp
    rcases hsp with ((h1 | h1) | h1) | h1 <;> (subst h1; exact absurd h (by decide))

/-- The accumulator of `natDigsGo` rides along on the right. -/
theorem natDigsGo_acc : ∀ (f n : Nat) (acc : List Char),
    natDigsGo f n acc = natDigsGo f n [] ++ acc
  | 0, _, _ => rfl
  | f + 1, n, acc => by
    simp only [natDigsGo]
    by_cases h : n < 10
    · simp [h]
    · simp only [if_neg h]
      rw [natDigsGo_acc f (n / 10) (dChar (n % 10) :: acc),
          natDigsGo_acc f (n / 10) [dChar (n % 10)]]
      simp

/-- Appending one digit multiplies the value by ten and adds the digit. -/
theorem digsToNat_append_digit (l : List Char) (c : Char) :
    digsToNat (l ++ [c]) = digsToNat l * 10 + digVal c := by
  simp [digsToNat, List.foldl_append]

/-- With fuel above the number, `natDigsGo` prints a non-empty all-digit
string whose value is the number again. -/
theorem natDigsGo_spec : ∀ (f n : Nat), n < f →
    (∀ c ∈ natDigsGo f n [], isDig c = true) ∧ natDigsGo f n [] ≠ [] ∧
    digsToNat (natDigsGo f n []) = n
  | 0, n, h => absurd h (Nat.not_lt_zero n)
  | f + 1, n, h => by
    simp only [natDigsGo]
    by_cases h10 : n < 10
    · simp only [if_pos h10]
      obtain ⟨hv, hd⟩ := dChar_spec n h10
      refine ⟨?_, by simp, ?_⟩
      · intro c hc
        simp only [List.mem_singleton] at hc
        subst hc; exact hd
      · simp [digsToNat, hv]
    · simp only [if_neg h10]
      obtain ⟨ha, hne, hval⟩ := natDigsGo_spec f (n / 10) (by omega)
      rw [natDigsGo_acc]
      obtain ⟨hv, hd⟩ := dChar_spec (n % 10) (Nat.mod_lt n (by omega))
      refine ⟨?_, by simp, ?_⟩
      · intro c hc
        rcases List.mem_append.mp hc with hc | hc
        · exact ha c hc
        · simp only [List.mem_singleton] at hc; subst hc; exact hd
      · rw [digsToNat_append_digit, hval, hv]
        omega

/-- `natDigs` prints a non-empty all-digit string whose value is the input. -/
theorem natDigs_props (n : Nat) :
    (∀ c ∈ natDigs n, isDig c = true) ∧ natDigs n ≠ [] ∧ digsToNat (natDigs n) = n :=
  natDigsGo_spec (n + 1) n (Nat.lt_succ_self n)

/-- The digit span stops at a delimiter. -/
theorem digSpan_stop : ∀ cs : List Char, delimOk cs = true → digSpan cs = ([], cs)
  | [], _ => rfl
  | c :: t, h => by
    simp only [delimOk, Bool.not_eq_true'] at h
    simp [digSpan, h]

/-- The digit span takes exactly a leading all-digit run. -/
theorem digSpan_run : ∀ (ds rest : List Char), (∀ c ∈ ds, isDig c = true) →
    delimOk rest = true → digSpan (ds ++ rest) = (ds, rest)
  | [], rest, _, hr => by simpa using digSpan_stop rest hr
  | c :: ds, rest, hall, hr => by
    have hc : isDig c = true := hall c (by simp)
    have ih := digSpan_run ds rest (fun x hx => hall x (by simp [hx])) hr
    simp [digSpan, hc, ih]

/-- Reading a printed integer recovers it (before any delimiter). -/
theorem readNum_intChars (i : Int) (rest : List Char) (h : delimOk rest = true) :
    readNum (intChars i ++ rest) = some (i, rest) := by
  obtain ⟨hall, hne, hval⟩ := natDigs_props i.natAbs
  cases hnd : natDigs i.natAbs with
  | nil => exact absurd hnd hne
  | cons d t =>
    rw [hnd] at hall hval
    have hspan : digSpan ((d :: t) ++ rest) = (d :: t, rest) := digSpan_run (d :: t) rest hall h
    rw [intChars]
    by_cases hneg : i < 0
    · simp only [if_pos hneg, hnd, List.cons_append]
      show readNum ('-' :: ((d :: t) ++ rest)) = some (i, rest)
      simp only [readNum, if_pos rfl, ite_true, hspan]
      show some (-(digsToNat (d :: t) : Int), rest) = some (i, rest)
      rw [hval]
      simp only [Option.some.injEq, Prod.mk.injEq]
      exact ⟨by omega, trivial⟩
    · simp only [if_neg hneg, hnd, List.cons_append]
      have hd : isDig d = true := hall d (by simp)
      obtain ⟨_, hdm, _⟩ := isDig_props hd
      show readNum ((d :: t) ++ rest) = some (i, rest)
      simp only [List.cons_append, readNum, if_neg hdm]
      rw [show d :: (t ++ rest) = (d :: t) ++ rest from rfl, hspan]
      show some ((digsToNat (d :: t) : Int), rest) = some (i, rest)
      rw [hval]
      simp only [Option.some.injEq, Prod.mk.injEq]
      exact ⟨by omega, trivial⟩

/-! ## C8: string, head and step lemmas -/

/-- Reading a quote closes the string body immediately. -/
theorem readStrTail_quote (X : List Char) : readStrTail ('"' :: X) = some ([], X) := by
  cases X with
  | nil => rfl
  | cons e X2 =>
    rw [readStrTail.eq_3, if_neg (by decide : ¬(('"' : Char) = '\\')), if_pos rfl]

/-- Reading one written (possibly escaped) character undoes the escaping. -/
theorem readStrTail_escChar (c : Char) (X : List Char) :
    readStrTail (escChar c ++ X) = (match readStrTail X with
      | some (s, r) => some (c :: s, r)
      | none => none) := by
  rw [escChar]
  by_cases h1 : c = '"'
  · subst h1
    rw [if_pos rfl]
    show readStrTail ('\\' :: '"' :: X) = _
    rw [readStrTail.eq_3, if_pos rfl]
    rfl
  · rw [if_neg h1]
    by_cases h2 : c = '\\'
    · subst h2
      rw [if_pos rfl]
      show readStrTail ('\\' :: '\\' :: X) = _
      rw [readStrTail.eq_3, if_pos rfl]
      rfl
    · rw [if_neg h2]
      show readStrTail (c :: X) = _
      cases X with
      | nil => rw [readStrTail.eq_2, if_neg h2, if_neg h1]
      | cons e X2 => rw [readStrTail.eq_3, if_neg h2, if_neg h1]

/-- Reading a written string body stops exactly at the closing quote. -/
theorem readStrTail_escChars : ∀ (s X : List Char),
    readStrTail (escChars s ++ '"' :: X) = some (s, X)
  | [], X => by
    show readStrTail ('"' :: X) = some ([], X)
    exact readStrTail_quote X
  | c :: s, X => by
    simp only [escChars, List.append_assoc]
    rw [readStrTail_escChar, readStrTail_escChars s X]

/-- Every written value begins with a character that is not whitespace and
closes no bracket, brace or separator. -/
theorem jWrite_head (v : JValue) : ∃ c t, jWrite v = c :: t ∧
    (jsSpace c = false ∧ c ≠ ']' ∧ c ≠ '}' ∧ c ≠ ',') := by
  cases v with
  | null => exact ⟨'n', _, rfl, by decide⟩
  | bool b => cases b with
    | true => exact ⟨'t', _, rfl, by decide⟩
    | false => exact ⟨'f', _, rfl, by decide⟩
  | str s => exact ⟨'"', _, rfl, by decide⟩
  | arr items => exact ⟨'[', _, rfl, by decide⟩
  | obj props => exact ⟨'{', _, rfl, by decide⟩
  | num i =>
    obtain ⟨hall, hne, _⟩ := natDigs_props i.natAbs
    by_cases hneg : i < 0
    · refine ⟨'-', natDigs i.natAbs, ?_, by decide⟩
      simp [jWrite, intChars, hneg]
    · cases hnd : natDigs i.natAbs with
      | nil => exact absurd hnd hne
      | cons d tl =>
        have hd : isDig d = true := hall d (by rw [hnd]; simp)
        obtain ⟨hws, _, hr1, hr2, hr3, _⟩ := isDig_props hd
        refine ⟨d, tl, ?_, hws, hr1, hr2, hr3⟩
        simp [jWrite, intChars, hneg, hnd]

/-- Whitespace skipping is the identity on non-whitespace heads. -/
theorem eatWs_not_ws {c : Char} (t : List Char) (h : jsSpace c = false) :
    eatWs (c :: t) = c :: t := by
  simp [eatWs, h]

/-- Whitespace skipping is the identity on written output. -/
theorem eatWs_jWrite (v : JValue) (X : List Char) :
    eatWs (jWrite v ++ X) = jWrite v ++ X := by
  obtain ⟨c, t, hw, hws, _, _, _⟩ := jWrite_head v
  rw [hw, List.cons_append]
  exact eatWs_not_ws _ hws

/-- One-step unfolding of the reader on an opening bracket (definitional). -/
theorem jRead_arr_step (f : Nat) (X : List Char) :
    jRead (f + 1) ('[' :: X) = (match eatWs X with
      | ']' :: r2 => some (.arr [], r2)
      | r1 =>
        match jReadItems f r1 with
        | some (vs, r2) => some (.arr vs, r2)
        | none => none) := rfl

/-- One-step unfolding of the reader on an opening brace (definitional). -/
theorem jRead_obj_step (f : Nat) (X : List Char) :
    jRead (f + 1) ('{' :: X) = (match eatWs X with
      | '}' :: r2 => some (.obj [], r2)
      | r1 =>
        match jReadProps f r1 with
        | some (ps, r2) => some (.obj ps, r2)
        | none => none) := rfl

/-- One-step unfolding of the reader on an opening quote (definitional). -/
theorem jRead_str_step (f : Nat) (X : List Char) :
    jRead (f + 1) ('"' :: X) = (match readStrTail X with
      | some (s, r2) => some (.str ⟨s⟩, r2)
      | none => none) := rfl

/-- One-step unfolding of the item reader (definitional). -/
theorem jReadItems_step (f : Nat) (cs : List Char) :
    jReadItems (f + 1) cs = (match jRead f cs with
      | none => none
      | some (v, r) =>
        match eatWs r with
        | ',' :: r2 =>
          match jReadItems f r2 with
          | some (vs, r3) => some (v :: vs, r3)
          | none => none
        | ']' :: r2 => some ([v], r2)
        | _ => none) := rfl

/-- One-step unfolding of the property reader (definitional). -/
theorem jReadProps_step (f : Nat) (cs : List Char) :
    jReadProps (f + 1) cs = (match eatWs cs with
      | '"' :: r =>
        match readStrTail r with
        | none => none
        | some (k, r1) =>
          match eatWs r1 with
          | ':' :: r2 =>
            match jRead f r2 with
            | none => none
            | some (v, r3) =>
              match eatWs r3 with
              | ',' :: r4 =>
                match jReadProps f r4 with
                | some (ps, r5) => some ((⟨k⟩, v) :: ps, r5)
                | none => none
              | '}' :: r4 => some ([(⟨k⟩, v)], r4)
              | _ => none
          | _ => none
      | _ => none) := rfl

/-- A non-structural head character routes the reader into the number branch. -/
theorem jRead_num_step (f : Nat) (c : Char) (t : List Char)
    (hc : jsSpace c = false ∧ c ≠ 'n' ∧ c ≠ 't' ∧ c ≠ 'f'
      ∧ c ≠ '"' ∧ c ≠ '[' ∧ c ≠ '{') :
    jRead (f + 1) (c :: t) = (match readNum (c :: t) with
      | some (i, r2) => some (.num i, r2)
      | none => none) := by
  obtain ⟨hws, hn, ht, hf, hq, hbk, hbc⟩ := hc
  have he : eatWs (c :: t) = c :: t := eatWs_not_ws t hws
  simp only [jRead, he]
  split
  all_goals try rfl
  all_goals (rename_i heq; simp only [List.cons.injEq] at heq; simp_all)

/-! ## C8: the writer-reader round trip -/

/-- One-step unfolding of the property reader at an opening quote
(definitional). -/
theorem jReadProps_quote (f : Nat) (X : List Char) :
    jReadProps (f + 1) ('"' :: X) = (match readStrTail X with
      | none => none
      | some (k, r1) =>
        match eatWs r1 with
        | ':' :: r2 =>
          match jRead f r2 with
          | none => none
          | some (v, r3) =>
            match eatWs r3 with
            | ',' :: r4 =>
              match jReadProps f r4 with
              | some (ps, r5) => some ((⟨k⟩, v) :: ps, r5)
              | none => none
            | '}' :: r4 => some ([(⟨k⟩, v)], r4)
            | _ => none
        | _ => none) := rfl

/-- A written non-empty item list starts with its first value's output. -/
theorem jWriteItems_cons (v : JValue) (vs : List JValue) :
    ∃ u, jWriteItems (v :: vs) = jWrite v ++ u := by
  cases vs with
  | nil => exact ⟨[], by simp [jWriteItems]⟩
  | cons v2 vs2 => exact ⟨',' :: jWriteItems (v2 :: vs2), by simp [jWriteItems]⟩

/-- A written non-empty property list starts with an opening quote. -/
theorem jWriteProps_head (k : String) (v : JValue) (ps : List (String × JValue)) :
    ∃ w, jWriteProps ((k, v) :: ps) = '"' :: w := by
  cases ps with
  | nil => exact ⟨_, rfl⟩
  | cons p ps2 => exact ⟨_, rfl⟩

mutual
/-- Reading written output recovers the value, with fuel above the output
length and a remainder that cannot extend a number literal. -/
theorem jRead_jWrite : ∀ (v : JValue) (f : Nat) (rest : List Char),
    (jWrite v).length < f → delimOk rest = true →
    jRead f (jWrite v ++ rest) = some (v, rest)
  | .null, f, rest, hf, _ => by
    cases f with
    | zero => exact absurd hf (Nat.not_lt_zero _)
    | succ f2 => rfl
  | .bool true, f, rest, hf, _ => by
    cases f with
    | zero => exact absurd hf (Nat.not_lt_zero _)
    | succ f2 => rfl
  | .bool false, f, rest, hf, _ => by
    cases f with
    | zero => exact absurd hf (Nat.not_lt_zero _)
    | succ f2 => rfl
  | .str s, f, rest, hf, _ => by
    cases f with
    | zero => exact absurd hf (Nat.not_lt_zero _)
    | succ f2 =>
      have harg : jWrite (.str s) ++ rest = '"' :: (escChars s.data ++ '"' :: rest) := by
        show ('"' :: (escChars s.data ++ ['"'])) ++ rest = _
        simp
      rw [harg, jRead_str_step, readStrTail_escChars]
  | .num i, f, rest, hf, hr => by
    cases f with
    | zero => exact absurd hf (Nat.not_lt_zero _)
    | succ f2 =>
      have harg : jWrite (.num i) = intChars i := by simp [jWrite]
      obtain ⟨hall, hne, _⟩ := natDigs_props i.natAbs
      by_cases hneg : i < 0
      · have h2 : intChars i = '-' :: natDigs i.natAbs := by rw [intChars, if_pos hneg]
        rw [harg, h2, List.cons_append,
          jRead_num_step f2 '-' _ (by decide),
          show '-' :: (natDigs i.natAbs ++ rest) = intChars i ++ rest from by
            rw [h2, List.cons_append],
          readNum_intChars i rest hr]
      · cases hnd : natDigs i.natAbs with
        | nil => exact absurd hnd hne
        | cons d t =>
          have hd : isDig d = true := hall d (by rw [hnd]; simp)
          obtain ⟨hws, _, _, _, _, _, hn, hf3, ht2, hq, hbc, hbk⟩ := isDig_props hd
          have h2 : intChars i = d :: t := by rw [intChars, if_neg hneg, hnd]
          rw [harg, h2, List.cons_append,
            jRead_num_step f2 d _ ⟨hws, hn, ht2, hf3, hq, hbk, hbc⟩,
            show d :: (t ++ rest) = intChars i ++ rest from by rw [h2, List.cons_append],
            readNum_intChars i rest hr]
  | .arr [], f, rest, hf, _ => by
    cases f with
    | zero => exact absurd hf (Nat.not_lt_zero _)
    | succ f2 => rfl
  | .arr (v :: vs), f, rest, hf, _ => by
    cases f with
    | zero => exact absurd hf (Nat.not_lt_zero _)
    | succ f2 =>
      have hwa : jWrite (.arr (v :: vs)) = '[' :: (jWriteItems (v :: vs) ++ [']']) := by
        simp [jWrite]
      have hlen : (jWriteItems (v :: vs)).length + 1 < f2 := by
        rw [hwa] at hf
        simp only [List.length_cons, List.length_append] at hf
        omega
      have harg : jWrite (.arr (v :: vs)) ++ rest
          = '[' :: (jWriteItems (v :: vs) ++ ']' :: rest) := by
        rw [hwa]; simp
      rw [harg, jRead_arr_step]
      obtain ⟨c, t, hw, hws, hbr, _, _⟩ := jWrite_head v
      obtain ⟨u, hu⟩ := jWriteItems_cons v vs
      have hshape : jWriteItems (v :: vs) ++ ']' :: rest = c :: (t ++ (u ++ ']' :: rest)) := by
        rw [hu, hw]; simp
      rw [hshape, eatWs_not_ws _ hws]
      split
      · rename_i heq
        rw [List.cons.injEq] at heq
        exact absurd heq.1 hbr
      · rw [← hshape, jRead_jWriteItems v vs f2 rest hlen]
  | .obj [], f, rest, hf, _ => by
    cases f with
    | zero => exact absurd hf (Nat.not_lt_zero _)
    | succ f2 => rfl
  | .obj ((k, v) :: ps), f, rest, hf, _ => by
    cases f with
    | zero => exact absurd hf (Nat.not_lt_zero _)
    | succ f2 =>
      have hwo : jWrite (.obj ((k, v) :: ps)) = '{' :: (jWriteProps ((k, v) :: ps) ++ ['}']) := by
        simp [jWrite]
      have hlen : (jWriteProps ((k, v) :: ps)).length + 1 < f2 := by
        rw [hwo] at hf
        simp only [List.length_cons, List.length_append] at hf
        omega
      have harg : jWrite (.obj ((k, v) :: ps)) ++ rest
          = '{' :: (jWriteProps ((k, v) :: ps) ++ '}' :: rest) := by
        rw [hwo]; simp
      rw [harg, jRead_obj_step]
      obtain ⟨w, hwp⟩ := jWriteProps_head k v ps
      have hshape : jWriteProps ((k, v) :: ps) ++ '}' :: rest = '"' :: (w ++ '}' :: rest) := by
        rw [hwp]; simp
      rw [hshape, eatWs_not_ws _ (by decide)]
      split
      · rename_i heq
        rw [List.cons.injEq] at heq
        exact absurd heq.1 (by decide)
      · rw [← hshape, jRead_jWriteProps k v ps f2 rest hlen]
termination_by v f rest hf hr => sizeOf v
decreasing_by all_goals (simp_wf; try omega)
/-- Reading a written non-empty item list up to the closing bracket. -/
theorem jRead_jWriteItems : ∀ (v : JValue) (vs : List JValue) (f : Nat) (rest : List Char),
    (jWriteItems (v :: vs)).length + 1 < f →
    jReadItems f (jWriteItems (v :: vs) ++ ']' :: rest) = some (v :: vs, rest)
  | v, [], f, rest, hf => by
    cases f with
    | zero => exact absurd hf (Nat.not_lt_zero _)
    | succ f2 =>
      have hitems : jWriteItems [v] = jWrite v := by simp [jWriteItems]
      have hlen : (jWrite v).length < f2 := by
        rw [hitems] at hf; omega
      have hv := jRead_jWrite v f2 (']' :: rest) hlen rfl
      have hc : eatWs (']' :: rest) = ']' :: rest := eatWs_not_ws _ rfl
      rw [hitems, jReadItems_step, hv]
      simp only [hc]
  | v, v2 :: vs, f, rest, hf => by
    cases f with
    | zero => exact absurd hf (Nat.not_lt_zero _)
    | succ f2 =>
      have hitems : jWriteItems (v :: v2 :: vs) = jWrite v ++ ',' :: jWriteItems (v2 :: vs) := by
        simp [jWriteItems]
      rw [hitems] at hf
      simp only [List.length_append, List.length_cons] at hf
      have hlenv : (jWrite v).length < f2 := by omega
      have hlent : (jWriteItems (v2 :: vs)).length + 1 < f2 := by omega
      have hv := jRead_jWrite v f2 (',' :: (jWriteItems (v2 :: vs) ++ ']' :: rest)) hlenv rfl
      have htail := jRead_jWriteItems v2 vs f2 rest hlent
      have harg : jWriteItems (v :: v2 :: vs) ++ ']' :: rest
          = jWrite v ++ (',' :: (jWriteItems (v2 :: vs) ++ ']' :: rest)) := by
        rw [hitems]; simp
      have hc : eatWs (',' :: (jWriteItems (v2 :: vs) ++ ']' :: rest))
          = ',' :: (jWriteItems (v2 :: vs) ++ ']' :: rest) := eatWs_not_ws _ rfl
      rw [harg, jReadItems_step, hv]
      simp only [hc, htail]
termination_by v vs f rest hf => sizeOf (v :: vs)
decreasing_by all_goals (simp_wf; try omega)
/-- Reading a written non-empty property list up to the closing brace. -/
theorem jRead_jWriteProps : ∀ (k : String) (v : JValue) (ps : List (String × JValue))
    (f : Nat) (rest : List Char),
    (jWriteProps ((k, v) :: ps)).length + 1 < f →
    jReadProps f (jWriteProps ((k, v) :: ps) ++ '}' :: rest) = some ((k, v) :: ps, rest)
  | k, v, [], f, rest, hf => by
    cases f with
    | zero => exact absurd hf (Nat.not_lt_zero _)
    | succ f2 =>
      have hprops : jWriteProps [(k, v)] = '"' :: (escChars k.data ++ ('"' :: ':' :: jWrite v)) := by
        simp [jWriteProps]
      have hlen : (jWrite v).length < f2 := by
        rw [hprops] at hf
        simp only [List.length_cons, List.length_append] at hf
        omega
      have hv := jRead_jWrite v f2 ('}' :: rest) hlen rfl
      have harg : jWriteProps [(k, v)] ++ '}' :: rest
          = '"' :: (escChars k.data ++ '"' :: (':' :: (jWrite v ++ '}' :: rest))) := by
        rw [hprops]; simp
      have hc1 : eatWs (':' :: (jWrite v ++ '}' :: rest)) = ':' :: (jWrite v ++ '}' :: rest) :=
        eatWs_not_ws _ rfl
      have hc2 : eatWs ('}' :: rest) = '}' :: rest := eatWs_not_ws _ rfl
      rw [harg, jReadProps_quote, readStrTail_escChars k.data]
      simp only [hc1, hc2, hv]
  | k, v, (k2, v2) :: ps, f, rest, hf => by
    cases f with
    | zero => exact absurd hf (Nat.not_lt_zero _)
    | succ f2 =>
      have hprops : jWriteProps ((k, v) :: (k2, v2) :: ps)
          = ('"' :: (escChars k.data ++ ('"' :: ':' :: jWrite v)))
            ++ ',' :: jWriteProps ((k2, v2) :: ps) := by
        simp [jWriteProps]
      rw [hprops] at hf
      simp only [List.length_append, List.length_cons] at hf
      have hlenv : (jWrite v).length < f2 := by omega
      have hlent : (jWriteProps ((k2, v2) :: ps)).length + 1 < f2 := by omega
      have hv := jRead_jWrite v f2 (',' :: (jWriteProps ((k2, v2) :: ps) ++ '}' :: rest)) hlenv rfl
      have htail := jRead_jWriteProps k2 v2 ps f2 rest hlent
      have harg : jWriteProps ((k, v) :: (k2, v2) :: ps) ++ '}' :: rest
          = '"' :: (escChars k.data ++ '"' :: (':' ::
              (jWrite v ++ ',' :: (jWriteProps ((k2, v2) :: ps) ++ '}' :: rest)))) := by
        rw [hprops]; simp
      have hc1 : eatWs (':' :: (jWrite v ++ ',' :: (jWriteProps ((k2, v2) :: ps) ++ '}' :: rest)))
          = ':' :: (jWrite v ++ ',' :: (jWriteProps ((k2, v2) :: ps) ++ '}' :: rest)) :=
        eatWs_not_ws _ rfl
      have hc2 : eatWs (',' :: (jWriteProps ((k2, v2) :: ps) ++ '}' :: rest))
          = ',' :: (jWriteProps ((k2, v2) :: ps) ++ '}' :: rest) :=
        eatWs_not_ws _ rfl
      rw [harg, jReadProps_quote, readStrTail_escChars k.data]
      simp only [hc1, hc2, hv, htail]
termination_by k v ps f rest hf => sizeOf ((k, v) :: ps)
decreasing_by all_goals (simp_wf; try omega)
end

/-- Writing then parsing is the identity on JSON values. -/
theorem jsonParse_jsonStringify (v : JValue) : jsonParse (jsonStringify v) = some v := by
  have h := jRead_jWrite v ((jWrite v).length + 1) [] (by omega) rfl
  rw [List.append_nil] at h
  show (match jRead ((jWrite v).length + 1) (jWrite v) with
    | some (w, r) => if eatWs r = [] then some w else none
    | none => none) = some v
  rw [h]
  rfl

/-- Claim C8: extracting a valid JSON input with a `.json` name yields the
re-serialized value, whose text re-parses to the same value (in general,
via the writer-reader round trip, and on the concrete payload with one
integer field); an input that fails to parse is passed through unchanged
rather than raising. -/
theorem json_extract_roundtrip (pdfP : PdfInput → Except String PdfData)
    (csvP : String → Except String CsvResult) (s : String) (v : JValue)
    (hs : jsonParse s = some v) :
    parseContentFromString pdfP csvP s "f.json"
      = .ok ⟨jsonStringify v, [("source", .str "f.json")]⟩ ∧
    jsonParse (jsonStringify v) = some v ∧
    (∀ s2, jsonParse s2 = none →
      parseContentFromString pdfP csvP s2 "f.json" = .ok ⟨s2, [("source", .str "f.json")]⟩) ∧
    parseContentFromString pdfP csvP "\x7b\"x\":1\x7d" "f.json"
      = .ok ⟨"\x7b\"x\":1\x7d", [("source", .str "f.json")]⟩ ∧
    jsonParse "\x7b\"x\":1\x7d" = some (.obj [("x", .num 1)]) := by
  refine ⟨?_, jsonParse_jsonStringify v, ?_, by rfl, by rfl⟩
  · simp only [parseContentFromString]
    rw [if_neg (by decide), if_neg (by decide), if_neg (by decide), if_pos (by decide), hs]
  · intro s2 hn
    simp only [parseContentFromString]
    rw [if_neg (by decide), if_neg (by decide), if_neg (by decide), if_pos (by decide), hn]

theorem json_extract_roundtrip_witness :
    parseContentFromString pdfNone csvNone "\x7b\"x\":1\x7d" "f.json"
      = .ok ⟨jsonStringify (.obj [("x", .num 1)]), [("source", .str "f.json")]⟩ ∧
    jsonParse (jsonStringify (.obj [("x", .num 1)])) = some (.obj [("x", .num 1)]) ∧
    (∀ s2, jsonParse s2 = none →
      parseContentFromString pdfNone csvNone s2 "f.json"
        = .ok ⟨s2, [("source", .str "f.json")]⟩) ∧
    parseContentFromString pdfNone csvNone "\x7b\"x\":1\x7d" "f.json"
      = .ok ⟨"\x7b\"x\":1\x7d", [("source", .str "f.json")]⟩ ∧
    jsonParse "\x7b\"x\":1\x7d" = some (.obj [("x", .num 1)]) :=
  json_extract_roundtrip pdfNone csvNone "\x7b\"x\":1\x7d" (.obj [("x", .num 1)]) (by rfl)
